import Mathlib

/-!
Shallow embedding of the color-thing color library core (channel.rs, hsv.rs)
for checking its natural-language specification.

Channel values of the Rust `f32` type are modelled by the type `F` below:
NaN, the two infinities, and finite values carried as exact rationals.
Comparison operators follow the IEEE-754 partial order that Rust's
`PartialOrd`/`PartialEq` on `f32` implement (every comparison with NaN is
false).  Finite arithmetic is exact rational arithmetic: rounding error of
the 32-bit significand is not modelled, but all special-value (NaN and
infinity) propagation rules are.

Unsigned integer channels (`u8`) are modelled by `Fin 256`.
-/

set_option autoImplicit false

/-- Model of a Rust `f32` value: NaN, an infinity (`inf true` = +∞,
`inf false` = −∞) or a finite value carried exactly as a rational. -/
inductive F where
  | nan : F
  | inf : Bool → F
  | fin : ℚ → F
deriving DecidableEq, Repr

namespace F

/-- IEEE `<` (Rust `PartialOrd` on `f32`): false whenever either side is NaN. -/
def lt : F → F → Bool
  | nan, _ => false
  | _, nan => false
  | inf a, inf b => !a && b
  | inf a, fin _ => !a
  | fin _, inf b => b
  | fin a, fin b => decide (a < b)

/-- IEEE `<=` (Rust `PartialOrd` on `f32`): false whenever either side is NaN. -/
def le : F → F → Bool
  | nan, _ => false
  | _, nan => false
  | inf a, inf b => !a || b
  | inf a, fin _ => !a
  | fin _, inf b => b
  | fin a, fin b => decide (a ≤ b)

/-- IEEE `==` (Rust `PartialEq` on `f32`): NaN is equal to nothing,
including itself. -/
def beq : F → F → Bool
  | nan, _ => false
  | _, nan => false
  | inf a, inf b => a == b
  | fin a, fin b => decide (a = b)
  | _, _ => false

/-- IEEE addition with exact finite arithmetic. -/
def add : F → F → F
  | nan, _ => nan
  | _, nan => nan
  | inf a, inf b => if a == b then inf a else nan
  | inf a, fin _ => inf a
  | fin _, inf b => inf b
  | fin a, fin b => fin (a + b)

/-- IEEE subtraction with exact finite arithmetic. -/
def sub : F → F → F
  | nan, _ => nan
  | _, nan => nan
  | inf a, inf b => if a == b then nan else inf a
  | inf a, fin _ => inf a
  | fin _, inf b => inf (!b)
  | fin a, fin b => fin (a - b)

/-- IEEE multiplication with exact finite arithmetic. -/
def mul : F → F → F
  | nan, _ => nan
  | _, nan => nan
  | inf a, inf b => inf (a == b)
  | inf a, fin q => if q = 0 then nan else inf (a == decide (0 < q))
  | fin q, inf b => if q = 0 then nan else inf (b == decide (0 < q))
  | fin a, fin b => fin (a * b)

/-- IEEE division with exact finite arithmetic. -/
def div : F → F → F
  | nan, _ => nan
  | _, nan => nan
  | inf _, inf _ => nan
  | inf a, fin q => inf (a == decide (0 ≤ q))
  | fin _, inf _ => fin 0
  | fin a, fin b =>
      if b = 0 then (if a = 0 then nan else inf (decide (0 < a))) else fin (a / b)

/-- Truncation of a rational toward zero, as Rust float→int casts and the
float remainder use. -/
def qtrunc (q : ℚ) : ℤ := if 0 ≤ q then ⌊q⌋ else -⌊-q⌋

/-- Rust `%` on floats: remainder with the sign of the dividend,
`a - trunc(a/b)*b`. -/
def rem : F → F → F
  | nan, _ => nan
  | _, nan => nan
  | inf _, _ => nan
  | fin a, inf _ => fin a
  | fin a, fin b => if b = 0 then nan else fin (a - qtrunc (a / b) * b)

/-- IEEE absolute value. -/
def abs : F → F
  | nan => nan
  | inf _ => inf true
  | fin q => fin |q|

/-- Rust `f32::round`: round half away from zero (on the exact rational). -/
def roundQ (q : ℚ) : ℚ := if 0 ≤ q then ((⌊q + 1/2⌋ : ℤ) : ℚ) else -((⌊-q + 1/2⌋ : ℤ) : ℚ)

/-- Rust `f32::round` lifted to `F`. -/
def round : F → F
  | nan => nan
  | inf b => inf b
  | fin q => fin (roundQ q)

end F

/-- Rust saturating cast `f32 as u8` (used for the hue sector in
`HSVColor::rgb`): NaN casts to 0, values are truncated toward zero and
saturated into `[0, 255]`. -/
def asU8 : F → ℕ
  | F.nan => 0
  | F.inf true => 255
  | F.inf false => 0
  | F.fin q => if q ≤ 0 then 0 else if (255 : ℚ) ≤ q then 255 else (F.qtrunc q).toNat

/-- The channel trait of channel.rs: the required items `INTEGER`,
`ch_max`, `ch_mid`, `ch_zero`, together with the `PartialOrd`/`PartialEq`
operators of the implementing Rust type (`blt`/`ble`/`beq`) and the
numeric casts `cuwtf` (cast to `f32`) / `cuwf` (cast from `f32`) that the
crate root provides and the default methods use.  `to_range` is the
range-normalization used by `HSVColor::normalize`; its implementations
are modelled from the spec where the defining file is not in the sources. -/
class Channel (α : Type) where
  INTEGER : Bool
  ch_max : α
  ch_mid : α
  ch_zero : α
  blt : α → α → Bool
  ble : α → α → Bool
  beq : α → α → Bool
  cuwtf : α → F
  cuwf : F → α
  to_range : α → α

namespace Channel

/-- Default method `Channel::clamp` from channel.rs: `ch_max` if the value
is above it, `ch_zero` if below, the value itself otherwise. -/
def clamp {α : Type} [Channel α] (x : α) : α :=
  if blt ch_max x then ch_max
  else if blt x ch_zero then ch_zero
  else x

/-- Default method `Channel::in_range` from channel.rs:
`self <= ch_max && self >= ch_zero`. -/
def in_range {α : Type} [Channel α] (x : α) : Bool :=
  ble x ch_max && ble ch_zero x

/-- Default method `Channel::conv` from channel.rs: clamp, rescale through
a float intermediate by `/ ch_max * D::ch_max`, round if the target is an
integer channel, and cast to the target. -/
def conv {α β : Type} [Channel α] [Channel β] (x : α) : β :=
  let float := F.mul (F.div (cuwtf (clamp x)) (cuwtf (ch_max : α))) (cuwtf (ch_max : β))
  cuwf (if @INTEGER β _ then float.round else float)

end Channel

/-- Clamp of an `F` value into `[0, 1]`, the body of channel.rs's default
`clamp` at the `f32` instance. -/
def F.clamp01 (x : F) : F :=
  if F.lt (F.fin 1) x then F.fin 1
  else if F.lt x (F.fin 0) then F.fin 0
  else x

/-- The `f32` channel of channel.rs: float channel with range `[0, 1]`.
`to_range` is modelled from the spec: saturation and value are linear
channels that normalization clamps into `[zero, max]`. -/
instance : Channel F where
  INTEGER := false
  ch_max := F.fin 1
  ch_mid := F.fin (1/2)
  ch_zero := F.fin 0
  blt := F.lt
  ble := F.le
  beq := F.beq
  cuwtf := id
  cuwf := id
  to_range := F.clamp01

/-- The wrapped representative of a rational angle in degrees:
`q` reduced into `[0, 360)` by subtracting whole turns. -/
def wrapq (q : ℚ) : ℚ := q - 360 * ⌊q / 360⌋

/-- Modelled from the spec: hue wrap-around of the angle type (angle.rs is
not among the sources).  A finite angle is reduced into `[0, 360°)` by
adding or removing full turns; NaN and infinite angles have no wrapped
representative and propagate as NaN. -/
def F.wrap360 : F → F
  | F.fin q => F.fin (wrapq q)
  | _ => F.nan

/-- The `AngleDeg<f32>` hue channel: a wrapper over an `f32` degree
measure. -/
structure AngleDeg where
  val : F
deriving DecidableEq, Repr

/-- Modelled from the spec: the angle channel (angle.rs is not among the
sources) is a channel-conforming wrapper whose maximum is a full turn
(360°) and whose zero is 0; comparisons and casts act on the wrapped
float, and its `to_range` is hue wrap-around rather than clamping. -/
instance : Channel AngleDeg where
  INTEGER := false
  ch_max := ⟨F.fin 360⟩
  ch_mid := ⟨F.fin 180⟩
  ch_zero := ⟨F.fin 0⟩
  blt a b := F.lt a.val b.val
  ble a b := F.le a.val b.val
  beq a b := F.beq a.val b.val
  cuwtf a := a.val
  cuwf x := ⟨x⟩
  to_range a := ⟨F.wrap360 a.val⟩

/-- Modelled from the spec: the cast from the float intermediate back to a
`u8` channel value (`cuwf`, defined at the crate root, which is not among
the sources).  Per the spec's failure semantics none of the channel
operations fail, so the cast is total; `conv` only ever hands it a rounded
value already inside `[0, 255]`. -/
def u8FromF : F → Fin 256
  | F.nan => ⟨0, by omega⟩
  | F.inf true => ⟨255, by omega⟩
  | F.inf false => ⟨0, by omega⟩
  | F.fin q => ⟨min 255 (⌊q⌋.toNat), Nat.lt_succ_of_le (min_le_left _ _)⟩

/-- The `u8` channel of channel.rs: integer channel with range
`[0, 255]`.  `to_range` is modelled from the spec as clamping (the
identity on every representable `u8`). -/
instance : Channel (Fin 256) where
  INTEGER := true
  ch_max := ⟨255, by omega⟩
  ch_mid := ⟨127, by omega⟩
  ch_zero := ⟨0, by omega⟩
  blt a b := decide (a.val < b.val)
  ble a b := decide (a.val ≤ b.val)
  beq a b := decide (a = b)
  cuwtf a := F.fin a.val
  cuwf := u8FromF
  to_range a := a

/-- The sRGB color-space marker type. -/
inductive SRGBSpace
deriving DecidableEq

/-- The HSV color type of hsv.rs: hue channel `H`, saturation/value
channel `T`, phantom color-space tag `S`. -/
structure HSVColor (H T : Type) (S : Type) where
  h : H
  s : T
  v : T
deriving DecidableEq, Repr

/-- The RGB color type (hsv.rs's conversion target): three same-typed
channels and a phantom color-space tag. -/
structure RGBColor (T : Type) (S : Type) where
  r : T
  g : T
  b : T
deriving DecidableEq, Repr

namespace HSVColor

variable {H T S : Type}

/-- `Default` impl of hsv.rs: all channels at their zero. -/
def default [Channel H] [Channel T] : HSVColor H T S :=
  ⟨Channel.ch_zero, Channel.ch_zero, Channel.ch_zero⟩

/-- `HSVColor::normalize` from hsv.rs: black when the value channel equals
zero, hue zeroed when the saturation channel equals zero, otherwise every
channel brought to its range. -/
def normalize [Channel H] [Channel T] (c : HSVColor H T S) : HSVColor H T S :=
  if Channel.beq c.v Channel.ch_zero then default
  else if Channel.beq c.s Channel.ch_zero then
    ⟨Channel.ch_zero, Channel.ch_zero, Channel.to_range c.v⟩
  else
    ⟨Channel.to_range c.h, Channel.to_range c.s, Channel.to_range c.v⟩

/-- `HSVColor::new` from hsv.rs: build the raw triple and normalize. -/
def new [Channel H] [Channel T] (h : H) (s : T) (v : T) : HSVColor H T S :=
  normalize ⟨h, s, v⟩

/-- `HSVColor::is_normal` from hsv.rs: all channels in range, black has
zero hue and saturation, grey has zero hue. -/
def is_normal [Channel H] [Channel T] (c : HSVColor H T S) : Bool :=
  if !Channel.in_range c.h || !Channel.in_range c.s || !Channel.in_range c.v then
    false
  else if Channel.beq c.v Channel.ch_zero then
    Channel.beq c.h Channel.ch_zero && Channel.beq c.s Channel.ch_zero
  else if Channel.beq c.s Channel.ch_zero then
    Channel.beq c.h Channel.ch_zero
  else true

/-- `HSVColor::conv` from hsv.rs: rescale each channel independently,
keep the space tag. -/
def conv {H2 T2 : Type} [Channel H] [Channel T] [Channel H2] [Channel T2]
    (c : HSVColor H T S) : HSVColor H2 T2 S :=
  ⟨Channel.conv c.h, Channel.conv c.s, Channel.conv c.v⟩

end HSVColor

/-- The hue-sector dispatch of `HSVColor::rgb` (hsv.rs): the match on
`h as u8` selecting the pre-offset (r, g, b) triple from the chroma `c`
and secondary component `x`; every sector outside 0–6 panics, modelled as
`none`. -/
def sectorRGB (sector : ℕ) (c x : F) : Option (F × F × F) :=
  match sector with
  | 0 => some (c, x, F.fin 0)
  | 1 => some (x, c, F.fin 0)
  | 2 => some (F.fin 0, c, x)
  | 3 => some (F.fin 0, x, c)
  | 4 => some (x, F.fin 0, c)
  | 5 => some (c, F.fin 0, x)
  | 6 => some (c, F.fin 0, x)
  | _ => none

/-- `HSVColor::rgb` from hsv.rs: convert the hue to degrees, divide by 60,
compute chroma, secondary component and offset in the float intermediate,
dispatch on the integer sector (`sectorRGB`; the panic arm is `none`) and
cast the offset components into the target channel type. -/
def HSVColor.rgb {H T S : Type} [Channel H] [Channel T]
    (col : HSVColor H T S) : Option (RGBColor T S) :=
  let h := F.div (Channel.cuwtf (Channel.conv col.h : AngleDeg)) (F.fin 60)
  let s := Channel.cuwtf col.s
  let v := Channel.cuwtf col.v
  let c := F.mul s v
  let x := F.mul c (F.sub (F.fin 1) (F.abs (F.sub (F.rem h (F.fin 2)) (F.fin 1))))
  let m := F.sub v c
  match sectorRGB (asU8 h) c x with
  | some (r, g, b) =>
      some ⟨Channel.cuwf (F.add r m), Channel.cuwf (F.add g m), Channel.cuwf (F.add b m)⟩
  | none => none

/-- `StdHSVColor`: the HSV instantiation the test suite works with — an
`AngleDeg<f32>` hue and `f32` saturation/value in the sRGB space. -/
abbrev StdHSVColor := HSVColor AngleDeg F SRGBSpace

/-- The same color with all three channels rescaled to `u8`. -/
abbrev HSV8 := HSVColor (Fin 256) (Fin 256) SRGBSpace

/-! ### Bridge lemmas: the `Channel` methods at each instance -/

@[simp] lemma beqF (a b : F) : Channel.beq a b = F.beq a b := rfl

@[simp] lemma bltF (a b : F) : Channel.blt a b = F.lt a b := rfl

@[simp] lemma bleF (a b : F) : Channel.ble a b = F.le a b := rfl

@[simp] lemma chmaxF : (Channel.ch_max : F) = F.fin 1 := rfl

@[simp] lemma chzeroF : (Channel.ch_zero : F) = F.fin 0 := rfl

@[simp] lemma torangeF (x : F) : Channel.to_range x = F.clamp01 x := rfl

@[simp] lemma beqA (a b : AngleDeg) : Channel.beq a b = F.beq a.val b.val := rfl

@[simp] lemma bleA (a b : AngleDeg) : Channel.ble a b = F.le a.val b.val := rfl

@[simp] lemma chmaxA : (Channel.ch_max : AngleDeg) = ⟨F.fin 360⟩ := rfl

@[simp] lemma chzeroA : (Channel.ch_zero : AngleDeg) = ⟨F.fin 0⟩ := rfl

@[simp] lemma torangeA (a : AngleDeg) : Channel.to_range a = ⟨F.wrap360 a.val⟩ := rfl

@[simp] lemma beq8 (a b : Fin 256) : Channel.beq a b = decide (a = b) := rfl

@[simp] lemma ble8 (a b : Fin 256) : Channel.ble a b = decide (a.val ≤ b.val) := rfl

@[simp] lemma chmax8 : (Channel.ch_max : Fin 256) = 255 := rfl

@[simp] lemma chzero8 : (Channel.ch_zero : Fin 256) = 0 := rfl

/-! ### Basic facts about the `F` operations -/

lemma F.beq_fin_zero_iff (x : F) : F.beq x (F.fin 0) = true ↔ x = F.fin 0 := by
  cases x <;> simp [F.beq]

lemma in_rangeF_iff (x : F) :
    Channel.in_range x = true ↔ ∃ q : ℚ, x = F.fin q ∧ 0 ≤ q ∧ q ≤ 1 := by
  cases x with
  | nan => simp [Channel.in_range, F.le]
  | inf b => cases b <;> simp [Channel.in_range, F.le]
  | fin q =>
      simp only [Channel.in_range, bleF, chmaxF, chzeroF, F.le, Bool.and_eq_true,
        decide_eq_true_eq]
      constructor
      · rintro ⟨h1, h0⟩; exact ⟨q, rfl, h0, h1⟩
      · rintro ⟨q', hq, h0, h1⟩; cases hq; exact ⟨h1, h0⟩

lemma in_rangeA_iff (a : AngleDeg) :
    Channel.in_range a = true ↔ ∃ q : ℚ, a = ⟨F.fin q⟩ ∧ 0 ≤ q ∧ q ≤ 360 := by
  obtain ⟨x⟩ := a
  cases x with
  | nan => simp [Channel.in_range, F.le, AngleDeg.mk.injEq]
  | inf b => cases b <;> simp [Channel.in_range, F.le, AngleDeg.mk.injEq]
  | fin q =>
      simp only [Channel.in_range, bleA, chmaxA, chzeroA, F.le, Bool.and_eq_true,
        decide_eq_true_eq, AngleDeg.mk.injEq, F.fin.injEq]
      constructor
      · rintro ⟨h1, h0⟩; exact ⟨q, rfl, h0, h1⟩
      · rintro ⟨q', hq, h0, h1⟩; cases hq; exact ⟨h1, h0⟩

lemma in_range8 (u : Fin 256) : Channel.in_range u = true := by
  simp only [Channel.in_range, ble8, Bool.and_eq_true, decide_eq_true_eq]
  exact ⟨Nat.lt_succ_iff.mp u.isLt, Nat.zero_le _⟩

lemma clamp01_of_mem {q : ℚ} (h0 : 0 ≤ q) (h1 : q ≤ 1) : F.clamp01 (F.fin q) = F.fin q := by
  simp only [F.clamp01, F.lt, decide_eq_true_eq]
  rw [if_neg (by simp; linarith), if_neg (by simp; linarith)]

lemma clamp01_idem (x : F) : F.clamp01 (F.clamp01 x) = F.clamp01 x := by
  cases x with
  | nan => rfl
  | inf b => cases b <;> rfl
  | fin q =>
      by_cases h1 : (1 : ℚ) < q
      · simp [F.clamp01, F.lt, h1]
      · by_cases h0 : q < 0
        · simp [F.clamp01, F.lt, h0, h1]
        · have h : F.clamp01 (F.fin q) = F.fin q := clamp01_of_mem (by linarith) (by linarith)
          rw [h, h]

lemma clamp01_in_range {x : F} (hx : x ≠ F.nan) : Channel.in_range (F.clamp01 x) = true := by
  cases x with
  | nan => exact absurd rfl hx
  | inf b =>
      cases b with
      | true => rw [in_rangeF_iff]; exact ⟨1, by simp [F.clamp01, F.lt], by norm_num⟩
      | false => rw [in_rangeF_iff]; exact ⟨0, by simp [F.clamp01, F.lt], by norm_num⟩
  | fin q =>
      rw [in_rangeF_iff]
      by_cases h1 : (1 : ℚ) < q
      · exact ⟨1, by simp [F.clamp01, F.lt, h1], by norm_num⟩
      · by_cases h0 : q < 0
        · exact ⟨0, by simp [F.clamp01, F.lt, h0, h1], by norm_num⟩
        · exact ⟨q, by rw [clamp01_of_mem (by linarith) (by linarith)], by linarith, by linarith⟩

/-! ### Facts about hue wrap-around -/

lemma wrapq_nonneg (q : ℚ) : 0 ≤ wrapq q := by
  have hf : (⌊q / 360⌋ : ℚ) ≤ q / 360 := Int.floor_le _
  have h360 : (360 : ℚ) * (q / 360) = q := by ring
  have := mul_le_mul_of_nonneg_left hf (by norm_num : (0:ℚ) ≤ 360)
  unfold wrapq; linarith

lemma wrapq_lt (q : ℚ) : wrapq q < 360 := by
  have hf : q / 360 < ⌊q / 360⌋ + 1 := Int.lt_floor_add_one _
  have h360 : (360 : ℚ) * (q / 360) = q := by ring
  have := mul_lt_mul_of_pos_left hf (by norm_num : (0:ℚ) < 360)
  unfold wrapq; linarith

lemma wrapq_of_mem {q : ℚ} (h0 : 0 ≤ q) (h1 : q < 360) : wrapq q = q := by
  have hfl : ⌊q / 360⌋ = 0 := by
    rw [Int.floor_eq_zero_iff]
    constructor
    · exact div_nonneg h0 (by norm_num)
    · exact (div_lt_one (by norm_num)).mpr h1
  unfold wrapq; rw [hfl]; ring

lemma wrapq_idem (q : ℚ) : wrapq (wrapq q) = wrapq q :=
  wrapq_of_mem (wrapq_nonneg q) (wrapq_lt q)

lemma wrap360_idem (x : F) : F.wrap360 (F.wrap360 x) = F.wrap360 x := by
  cases x with
  | nan => rfl
  | inf b => rfl
  | fin q => simp [F.wrap360, wrapq_idem]

lemma F.beq_eq_false_of_ne {x : F} (hx : x ≠ F.fin 0) : F.beq x (F.fin 0) = false := by
  cases hb : F.beq x (F.fin 0) with
  | false => rfl
  | true => exact absurd ((F.beq_fin_zero_iff x).mp hb) hx

/-- Inversion of `is_normal` at the `StdHSVColor` instantiation: a normal
color that is black has zero hue and saturation, and a normal grey color
has zero hue. -/
lemma is_normal_std_inv (c : StdHSVColor) (hn : c.is_normal = true) :
    (F.beq c.v (F.fin 0) = true → c.h.val = F.fin 0 ∧ c.s = F.fin 0) ∧
    (F.beq c.v (F.fin 0) = false → F.beq c.s (F.fin 0) = true → c.h.val = F.fin 0) := by
  unfold HSVColor.is_normal at hn
  simp only [beqF, beqA, chzeroF, chzeroA] at hn
  split_ifs at hn with g1 g2 g3
  · rw [Bool.and_eq_true] at hn
    constructor
    · intro _
      exact ⟨(F.beq_fin_zero_iff _).mp hn.1, (F.beq_fin_zero_iff _).mp hn.2⟩
    · intro hf _
      rw [g2] at hf
      simp at hf
  · constructor
    · intro hbv
      exact absurd hbv g2
    · intro _ _
      exact (F.beq_fin_zero_iff _).mp hn
  · constructor
    · intro hbv
      exact absurd hbv g2
    · intro _ hbs
      exact absurd hbs g3

/-- A `u8` HSV color is normal as soon as the two collapse implications
hold: every `u8` channel value is in range. -/
lemma is_normal8_of (d : HSV8)
    (h1 : d.v = 0 → d.h = 0 ∧ d.s = 0)
    (h2 : d.s = 0 → d.h = 0) : d.is_normal = true := by
  unfold HSVColor.is_normal
  simp only [in_range8, beq8, chzero8, Bool.not_true, Bool.or_self, Bool.false_or]
  by_cases hv : d.v = 0
  · obtain ⟨hh, hs⟩ := h1 hv
    simp [hv, hh, hs]
  · by_cases hs : d.s = 0
    · simp [hv, hs, h2 hs]
    · simp [hv, hs]

/-- C1: the spec's concrete scenario claims `HSV(-90°, 2.0, -5.0)`
normalizes to `(0°, 0.0, 0.0)`.  It does not: `normalize` compares the
raw value channel against zero, so the result is `(270°, 1.0, 0.0)`. -/
theorem c1_counterexample :
    (HSVColor.new ⟨F.fin (-90)⟩ (F.fin 2) (F.fin (-5)) : StdHSVColor) =
      ⟨⟨F.fin 270⟩, F.fin 1, F.fin 0⟩ ∧
    ¬ ((HSVColor.new ⟨F.fin (-90)⟩ (F.fin 2) (F.fin (-5)) : StdHSVColor) =
      ⟨⟨F.fin 0⟩, F.fin 0, F.fin 0⟩) := by
  constructor
  · with_unfolding_all decide
  · with_unfolding_all decide

/-- C1 (amended): normalizing the HSV color (−90°, 2.0, −5.0) yields
(270°, 1.0, 0.0): the black-collapse rule is evaluated against the raw
value channel before any clamping, so a raw nonzero value that merely
clamps to zero does not collapse hue and saturation; the hue is wrapped
and the saturation and value are clamped instead. -/
theorem c1_normalize_raw_value :
    (HSVColor.new ⟨F.fin (-90)⟩ (F.fin 2) (F.fin (-5)) : StdHSVColor) =
      ⟨⟨F.fin 270⟩, F.fin 1, F.fin 0⟩ := by
  with_unfolding_all decide

/-- C3: the pre-offset (r, g, b) triple of the HSV→RGB conversion is
selected by the integer hue sector — 0 ↦ (c,x,0), 1 ↦ (x,c,0),
2 ↦ (0,c,x), 3 ↦ (0,x,c), 4 ↦ (x,0,c), 5 and 6 ↦ (c,0,x) — and every
other sector value aborts the conversion (the panic arm, modelled as
`none`), the core's only hard-failure condition. -/
theorem c3_sector_dispatch (c x : F) (n : ℕ) :
    sectorRGB 0 c x = some (c, x, F.fin 0) ∧
    sectorRGB 1 c x = some (x, c, F.fin 0) ∧
    sectorRGB 2 c x = some (F.fin 0, c, x) ∧
    sectorRGB 3 c x = some (F.fin 0, x, c) ∧
    sectorRGB 4 c x = some (x, F.fin 0, c) ∧
    sectorRGB 5 c x = some (c, F.fin 0, x) ∧
    sectorRGB 6 c x = some (c, F.fin 0, x) ∧
    (7 ≤ n → sectorRGB n c x = none) := by
  refine ⟨rfl, rfl, rfl, rfl, rfl, rfl, rfl, fun hn => ?_⟩
  match n, hn with
  | (m + 7), _ => rfl

theorem c3_witness :
    sectorRGB 0 (F.fin 1) (F.fin 0) = some (F.fin 1, F.fin 0, F.fin 0) ∧
    sectorRGB 7 (F.fin 1) (F.fin 0) = none :=
  ⟨(c3_sector_dispatch (F.fin 1) (F.fin 0) 7).1,
   (c3_sector_dispatch (F.fin 1) (F.fin 0) 7).2.2.2.2.2.2.2 (by omega)⟩

/-- C4: the channel operations do not fail on any input: `clamp` maps +∞
to the channel maximum and −∞ to the channel zero, `clamp` of any non-NaN
value is in range, and `conv` into the `u8` channel always returns a
value of the target type (a value in `[0, 255]`). -/
theorem c4_channel_ops_total :
    Channel.clamp (F.inf true) = F.fin 1 ∧
    Channel.clamp (F.inf false) = F.fin 0 ∧
    (∀ x : F, x ≠ F.nan → Channel.in_range (Channel.clamp x) = true) ∧
    (∀ x : F, (Channel.conv x : Fin 256).val ≤ 255) := by
  refine ⟨by with_unfolding_all decide, by with_unfolding_all decide, ?_, ?_⟩
  · intro x hx
    have h : Channel.clamp x = F.clamp01 x := rfl
    rw [h]; exact clamp01_in_range hx
  · intro x; exact Nat.lt_succ_iff.mp (Fin.isLt _)

theorem c4_witness :
    F.fin 1 ≠ F.nan ∧ Channel.in_range (Channel.clamp (F.fin 1)) = true :=
  ⟨by decide, c4_channel_ops_total.2.2.1 (F.fin 1) (by decide)⟩

/-- C7: `normalize(h, s, 0)` collapses to black for every hue and
saturation; the claim's second half fails as stated because the value
channel is clamped — at `(0°, 0.0, 2.0)` the result is `(0°, 0.0, 1.0)`,
not `(0°, 0.0, 2.0)`. -/
theorem c7_counterexample :
    (HSVColor.normalize ⟨⟨F.fin 0⟩, F.fin 0, F.fin 2⟩ : StdHSVColor) =
      ⟨⟨F.fin 0⟩, F.fin 0, F.fin 1⟩ ∧
    ¬ ((HSVColor.normalize ⟨⟨F.fin 0⟩, F.fin 0, F.fin 2⟩ : StdHSVColor) =
      ⟨⟨F.fin 0⟩, F.fin 0, F.fin 2⟩) := by
  constructor
  · with_unfolding_all decide
  · with_unfolding_all decide

/-- C7 (amended): for every hue and saturation, `normalize(h, s, 0)` is
`(0, 0, 0)`; and for every hue and every in-range value `v ≠ 0`,
`normalize(h, 0, v)` is `(0, 0, v)`. -/
theorem c7_degenerate_collapse :
    (∀ (h : AngleDeg) (s : F),
      (HSVColor.normalize ⟨h, s, F.fin 0⟩ : StdHSVColor) = ⟨⟨F.fin 0⟩, F.fin 0, F.fin 0⟩) ∧
    (∀ (h : AngleDeg) (v : F), v ≠ F.fin 0 → Channel.in_range v = true →
      (HSVColor.normalize ⟨h, F.fin 0, v⟩ : StdHSVColor) = ⟨⟨F.fin 0⟩, F.fin 0, v⟩) := by
  constructor
  · intro h s
    simp [HSVColor.normalize, HSVColor.default, F.beq]
  · intro h v hne hin
    obtain ⟨q, rfl, h0, h1⟩ := (in_rangeF_iff v).mp hin
    have hq : ¬(q = 0) := fun hq => hne (by rw [hq])
    simp [HSVColor.normalize, F.beq, hq, clamp01_of_mem h0 h1]

theorem c7_witness :
    F.fin (1/2) ≠ F.fin 0 ∧ Channel.in_range (F.fin (1/2)) = true ∧
    (HSVColor.normalize ⟨⟨F.fin 5⟩, F.fin 0, F.fin (1/2)⟩ : StdHSVColor) =
      ⟨⟨F.fin 0⟩, F.fin 0, F.fin (1/2)⟩ :=
  ⟨by with_unfolding_all decide, by with_unfolding_all decide,
   c7_degenerate_collapse.2 ⟨F.fin 5⟩ (F.fin (1/2)) (by with_unfolding_all decide)
     (by with_unfolding_all decide)⟩

/-- C8: for every nonzero saturation and value, normalizing a hue of −90°
yields hue 270°: negative hues are wrapped by adding full turns, never
clamped to 0°. -/
theorem c8_hue_wrap (s v : F) (hs : s ≠ F.fin 0) (hv : v ≠ F.fin 0) :
    (HSVColor.normalize ⟨⟨F.fin (-90)⟩, s, v⟩ : StdHSVColor).h = ⟨F.fin 270⟩ := by
  have hw : F.wrap360 (F.fin (-90)) = F.fin 270 := by with_unfolding_all decide
  simp [HSVColor.normalize, F.beq_eq_false_of_ne hs, F.beq_eq_false_of_ne hv, hw]

theorem c8_witness :
    F.fin 1 ≠ F.fin 0 ∧
    (HSVColor.normalize ⟨⟨F.fin (-90)⟩, F.fin 1, F.fin 1⟩ : StdHSVColor).h = ⟨F.fin 270⟩ :=
  ⟨by decide, c8_hue_wrap (F.fin 1) (F.fin 1) (by decide) (by decide)⟩

/-- `normalize` at the `StdHSVColor` instantiation, with the channel
methods spelled out. -/
lemma normalize_std_cases (c : StdHSVColor) :
    c.normalize = if F.beq c.v (F.fin 0) = true then ⟨⟨F.fin 0⟩, F.fin 0, F.fin 0⟩
      else if F.beq c.s (F.fin 0) = true then ⟨⟨F.fin 0⟩, F.fin 0, F.clamp01 c.v⟩
      else ⟨⟨F.wrap360 c.h.val⟩, F.clamp01 c.s, F.clamp01 c.v⟩ := rfl

lemma AngleDeg.ext_val {a : AngleDeg} {x : F} (h : a.val = x) : a = ⟨x⟩ := by
  cases a
  cases h
  rfl

lemma conv_angle_zero : (Channel.conv (⟨F.fin 0⟩ : AngleDeg) : Fin 256) = 0 := by
  with_unfolding_all decide

lemma conv_f_zero : (Channel.conv (F.fin 0) : Fin 256) = 0 := by
  with_unfolding_all decide

/-- Sufficient conditions for `is_normal` at the `StdHSVColor`
instantiation. -/
lemma is_normal_std_of (c : StdHSVColor)
    (hh : Channel.in_range c.h = true) (hs : Channel.in_range c.s = true)
    (hv : Channel.in_range c.v = true)
    (h1 : F.beq c.v (F.fin 0) = true →
      F.beq c.h.val (F.fin 0) = true ∧ F.beq c.s (F.fin 0) = true)
    (h2 : F.beq c.s (F.fin 0) = true → F.beq c.h.val (F.fin 0) = true) :
    c.is_normal = true := by
  unfold HSVColor.is_normal
  simp only [beqF, beqA, chzeroF, chzeroA, hh, hs, hv, Bool.not_true, Bool.or_self,
    Bool.false_or]
  by_cases hbv : F.beq c.v (F.fin 0) = true
  · obtain ⟨a, b⟩ := h1 hbv
    simp [hbv, a, b]
  · by_cases hbs : F.beq c.s (F.fin 0) = true
    · simp [hbv, hbs, h2 hbs]
    · simp [hbv, hbs]

/-- C2: the claim that `new` establishes `is_normal` for every input
fails: `new(-90°, 2.0, -5.0)` yields `(270°, 1.0, 0.0)`, whose value
channel is zero while hue and saturation are not. -/
theorem c2_counterexample :
    HSVColor.is_normal (HSVColor.new ⟨F.fin (-90)⟩ (F.fin 2) (F.fin (-5)) : StdHSVColor) =
      false := by
  with_unfolding_all decide

/-- C2 (amended): for every input triple whose three channels are already
in range (which excludes NaN and the infinities), the color built by
`new` satisfies `is_normal`. -/
theorem c2_new_normal_of_in_range (h : AngleDeg) (s v : F)
    (hh : Channel.in_range h = true) (hs : Channel.in_range s = true)
    (hv : Channel.in_range v = true) :
    HSVColor.is_normal (HSVColor.new h s v : StdHSVColor) = true := by
  obtain ⟨qh, rfl, hqh0, hqh1⟩ := (in_rangeA_iff h).mp hh
  obtain ⟨qs, rfl, hqs0, hqs1⟩ := (in_rangeF_iff s).mp hs
  obtain ⟨qv, rfl, hqv0, hqv1⟩ := (in_rangeF_iff v).mp hv
  have hnew : (HSVColor.new (⟨F.fin qh⟩ : AngleDeg) (F.fin qs) (F.fin qv) : StdHSVColor) =
      HSVColor.normalize ⟨⟨F.fin qh⟩, F.fin qs, F.fin qv⟩ := rfl
  rw [hnew, normalize_std_cases]
  dsimp only
  by_cases hv0 : qv = 0
  · subst hv0
    rw [if_pos (by decide)]
    decide
  · rw [if_neg (by simp [F.beq, hv0])]
    by_cases hs0 : qs = 0
    · subst hs0
      rw [if_pos (by decide), clamp01_of_mem hqv0 hqv1]
      apply is_normal_std_of <;> dsimp only
      · decide
      · decide
      · exact (in_rangeF_iff _).mpr ⟨qv, rfl, hqv0, hqv1⟩
      · intro hbv
        exact absurd ((F.beq_fin_zero_iff _).mp hbv) (by simp [hv0])
      · intro _
        decide
    · rw [if_neg (by simp [F.beq, hs0]), clamp01_of_mem hqs0 hqs1,
        clamp01_of_mem hqv0 hqv1]
      apply is_normal_std_of
      · exact (in_rangeA_iff _).mpr ⟨wrapq qh, rfl, wrapq_nonneg qh, le_of_lt (wrapq_lt qh)⟩
      · exact (in_rangeF_iff _).mpr ⟨qs, rfl, hqs0, hqs1⟩
      · exact (in_rangeF_iff _).mpr ⟨qv, rfl, hqv0, hqv1⟩
      · intro hbv
        exact absurd ((F.beq_fin_zero_iff _).mp hbv) (by simp [hv0])
      · intro hbs
        exact absurd ((F.beq_fin_zero_iff _).mp hbs) (by simp [hs0])

theorem c2_witness :
    Channel.in_range (⟨F.fin 90⟩ : AngleDeg) = true ∧
    Channel.in_range (F.fin (1/2)) = true ∧
    HSVColor.is_normal
      (HSVColor.new ⟨F.fin 90⟩ (F.fin (1/2)) (F.fin (1/2)) : StdHSVColor) = true :=
  ⟨by with_unfolding_all decide, by with_unfolding_all decide,
   c2_new_normal_of_in_range ⟨F.fin 90⟩ (F.fin (1/2)) (F.fin (1/2))
     (by with_unfolding_all decide) (by with_unfolding_all decide)
     (by with_unfolding_all decide)⟩

/-- C5: rescaling a normal color can produce a non-normal color: the
normal color (90°, 0.5, 0.001) rescaled to `u8` channels becomes
(64, 128, 0), whose value channel rounded to zero while hue and
saturation did not. -/
theorem c5_counterexample :
    HSVColor.is_normal (⟨⟨F.fin 90⟩, F.fin (1/2), F.fin (1/1000)⟩ : StdHSVColor) = true ∧
    (HSVColor.conv (⟨⟨F.fin 90⟩, F.fin (1/2), F.fin (1/1000)⟩ : StdHSVColor) : HSV8) =
      ⟨64, 128, 0⟩ ∧
    HSVColor.is_normal
      (HSVColor.conv (⟨⟨F.fin 90⟩, F.fin (1/2), F.fin (1/1000)⟩ : StdHSVColor) : HSV8) =
      false := by
  refine ⟨by with_unfolding_all decide, by with_unfolding_all decide,
    by with_unfolding_all decide⟩

/-- C5 (amended): `HSVColor::conv` rescales the three channels
independently, keeps the color-space tag and does not renormalize; the
result of rescaling a normal color is normal provided no nonzero
saturation or value channel is rounded to the target's zero. -/
theorem c5_conv_preserves_normal (c : StdHSVColor) (hn : c.is_normal = true)
    (hs : (HSVColor.conv c : HSV8).s = 0 → F.beq c.s (F.fin 0) = true)
    (hv : (HSVColor.conv c : HSV8).v = 0 → F.beq c.v (F.fin 0) = true) :
    (HSVColor.conv c : HSV8).is_normal = true := by
  have hinv := is_normal_std_inv c hn
  apply is_normal8_of
  · intro hv0
    obtain ⟨hh0, hs0⟩ := hinv.1 (hv hv0)
    constructor
    · show (Channel.conv c.h : Fin 256) = 0
      rw [AngleDeg.ext_val hh0]
      exact conv_angle_zero
    · show (Channel.conv c.s : Fin 256) = 0
      rw [hs0]
      exact conv_f_zero
  · intro hs0
    have hbs := hs hs0
    show (Channel.conv c.h : Fin 256) = 0
    by_cases hbv : F.beq c.v (F.fin 0) = true
    · rw [AngleDeg.ext_val (hinv.1 hbv).1]
      exact conv_angle_zero
    · have hbvf : F.beq c.v (F.fin 0) = false := by
        cases h' : F.beq c.v (F.fin 0) with
        | false => rfl
        | true => exact absurd h' hbv
      rw [AngleDeg.ext_val (hinv.2 hbvf hbs)]
      exact conv_angle_zero

theorem c5_witness :
    HSVColor.is_normal (⟨⟨F.fin 90⟩, F.fin (1/2), F.fin 1⟩ : StdHSVColor) = true ∧
    HSVColor.is_normal
      (HSVColor.conv (⟨⟨F.fin 90⟩, F.fin (1/2), F.fin 1⟩ : StdHSVColor) : HSV8) = true :=
  ⟨by with_unfolding_all decide,
   c5_conv_preserves_normal ⟨⟨F.fin 90⟩, F.fin (1/2), F.fin 1⟩
     (by with_unfolding_all decide) (by with_unfolding_all decide)
     (by with_unfolding_all decide)⟩

/-- C6: normalization is not idempotent on every input: normalizing
(−90°, 2.0, −5.0) gives (270°, 1.0, 0.0), and normalizing that again
collapses it to black (0°, 0.0, 0.0). -/
theorem c6_counterexample :
    (HSVColor.normalize (HSVColor.normalize ⟨⟨F.fin (-90)⟩, F.fin 2, F.fin (-5)⟩) :
      StdHSVColor) = ⟨⟨F.fin 0⟩, F.fin 0, F.fin 0⟩ ∧
    (HSVColor.normalize ⟨⟨F.fin (-90)⟩, F.fin 2, F.fin (-5)⟩ : StdHSVColor) =
      ⟨⟨F.fin 270⟩, F.fin 1, F.fin 0⟩ ∧
    ¬ ((HSVColor.normalize (HSVColor.normalize ⟨⟨F.fin (-90)⟩, F.fin 2, F.fin (-5)⟩) :
      StdHSVColor) = HSVColor.normalize ⟨⟨F.fin (-90)⟩, F.fin 2, F.fin (-5)⟩) := by
  refine ⟨by with_unfolding_all decide, by with_unfolding_all decide,
    by with_unfolding_all decide⟩

/-- C6 (amended): normalization is idempotent on every color whose
saturation and value channels are zero whenever their range-clamped form
is zero (i.e. no nonzero saturation or value that clamps to zero). -/
theorem c6_normalize_idempotent (c : StdHSVColor)
    (h1 : Channel.to_range c.s = F.fin 0 → c.s = F.fin 0)
    (h2 : Channel.to_range c.v = F.fin 0 → c.v = F.fin 0) :
    HSVColor.normalize (HSVColor.normalize c) = HSVColor.normalize c := by
  simp only [torangeF] at h1 h2
  rw [normalize_std_cases c]
  by_cases hbv : F.beq c.v (F.fin 0) = true
  · rw [if_pos hbv]
    with_unfolding_all decide
  · rw [if_neg hbv]
    have hv' : F.beq (F.clamp01 c.v) (F.fin 0) = false := by
      cases hq : F.beq (F.clamp01 c.v) (F.fin 0) with
      | false => rfl
      | true =>
          exact absurd ((F.beq_fin_zero_iff _).mpr (h2 ((F.beq_fin_zero_iff _).mp hq))) hbv
    by_cases hbs : F.beq c.s (F.fin 0) = true
    · rw [if_pos hbs, normalize_std_cases]
      dsimp only
      rw [if_neg (by rw [hv']; simp), if_pos (by decide), clamp01_idem]
    · have hs' : F.beq (F.clamp01 c.s) (F.fin 0) = false := by
        cases hq : F.beq (F.clamp01 c.s) (F.fin 0) with
        | false => rfl
        | true =>
            exact absurd ((F.beq_fin_zero_iff _).mpr (h1 ((F.beq_fin_zero_iff _).mp hq))) hbs
      rw [if_neg hbs, normalize_std_cases]
      dsimp only
      rw [if_neg (by rw [hv']; simp), if_neg (by rw [hs']; simp),
        wrap360_idem, clamp01_idem, clamp01_idem]

theorem c6_witness :
    (Channel.to_range (F.fin 2) = F.fin 0 → F.fin 2 = F.fin 0) ∧
    HSVColor.normalize
      (HSVColor.normalize (⟨⟨F.fin (-90)⟩, F.fin 2, F.fin (1/2)⟩ : StdHSVColor)) =
      HSVColor.normalize (⟨⟨F.fin (-90)⟩, F.fin 2, F.fin (1/2)⟩ : StdHSVColor) :=
  ⟨by with_unfolding_all decide,
   c6_normalize_idempotent ⟨⟨F.fin (-90)⟩, F.fin 2, F.fin (1/2)⟩
     (by with_unfolding_all decide) (by with_unfolding_all decide)⟩

set_option maxRecDepth 40000 in
set_option maxHeartbeats 2000000 in
/-- C9: the channel-rescaling round trip u8 → f32 → u8 is the identity on
all 256 values (the float intermediate is modelled exactly), and `conv`
rounds to nearest at integer targets (0.33 · 255 = 84.15 rounds to 84,
not truncates up or down systematically). -/
theorem c9_channel_roundtrip :
    (∀ n : Fin 256, (Channel.conv (Channel.conv n : F) : Fin 256) = n) ∧
    (Channel.conv (F.fin (33/100)) : Fin 256) = 84 := by
  constructor
  · with_unfolding_all decide
  · with_unfolding_all decide

/-- C10: for the `f32` channel, `clamp` returns NaN unchanged while
`in_range` rejects NaN, so `clamp` does not establish `in_range` for NaN
and a NaN channel value flows through `conv` into downstream
arithmetic. -/
theorem c10_nan_flows_past_clamp :
    Channel.clamp F.nan = F.nan ∧
    Channel.in_range F.nan = false ∧
    (Channel.conv F.nan : F) = F.nan := by
  refine ⟨by with_unfolding_all decide, by with_unfolding_all decide,
    by with_unfolding_all decide⟩
